import Mathlib

/-!
# Verification of the VCBot vector-retrieval core

Shallow embedding, in Lean 4, of the retrieval core of the VCBot repository:

* `repositories/vector.py` — `VectorRepository` (load-time repair, delete,
  exists, cosine-similarity search);
* `vector_search.py` — `search_vectors_simple`;
* `geminitools.py` — `search_bills` (clamping, error results, grouping,
  per-group ordering, max-score aggregation);
* `makeembeddings.py` — the token-window chunking loop;
* `tools.py` — `call_bill_search`.

Conventions of the embedding:

* Python floats are modelled as exact rationals (`ℚ`).  The cosine score
  `dot q v / (‖q‖·‖v‖)` contains an irrational square root, so scores are
  represented through the strictly monotone bijection `s ↦ sign s * s ^ 2`,
  which maps the score `dot/(‖q‖‖v‖)` to the rational
  `sign (dot q v) * (dot q v)^2 / (normSq q * normSq v)`.  The map preserves
  order and ties exactly, and fixes the special value `-1`, so every ordering
  or `-1`-valued statement about the true scores transfers verbatim.
* numpy's division of `0.0` by `0.0` produces `nan` (with a warning, never an
  exception); a `nan` score is modelled as `none : Option ℚ`.  `np.argsort`
  places `nan` last in ascending order, hence first after the `[::-1]`
  reversal; the comparator `descLE` below reproduces that.
* Python's `sorted` / `list.sort` is a stable sort; it is modelled by the
  structural insertion sort `sortByKey`, which is stable and evaluates by
  `decide`.
-/

namespace VCBot

/-! ## Stable sorting (model of Python `sorted` / numpy top-k selection) -/

/-- Insert `a` into `l` in front of the first element `b` with `le a b`.
Used by `sortByKey`; for a total preorder `le` this realises a stable
insertion sort. -/
def insertSorted (le : α → α → Bool) (a : α) : List α → List α
  | [] => [a]
  | b :: bs => if le a b then a :: b :: bs else b :: insertSorted le a bs

/-- Stable sort of `l` by the boolean comparison `le`. -/
def sortByKey (le : α → α → Bool) : List α → List α
  | [] => []
  | a :: as => insertSorted le a (sortByKey le as)

theorem length_insertSorted (le : α → α → Bool) (a : α) (l : List α) :
    (insertSorted le a l).length = l.length + 1 := by
  induction l with
  | nil => rfl
  | cons b bs ih =>
    simp only [insertSorted]
    by_cases h : le a b
    · simp [h]
    · simp [h, ih]

theorem length_sortByKey (le : α → α → Bool) (l : List α) :
    (sortByKey le l).length = l.length := by
  induction l with
  | nil => rfl
  | cons a as ih => simp [sortByKey, length_insertSorted, ih]

theorem perm_insertSorted (le : α → α → Bool) (a : α) (l : List α) :
    List.Perm (insertSorted le a l) (a :: l) := by
  induction l with
  | nil => exact List.Perm.refl _
  | cons b bs ih =>
    simp only [insertSorted]
    by_cases h : le a b = true
    · rw [if_pos h]
    · rw [if_neg h]
      exact List.Perm.trans (ih.cons b) (List.Perm.swap a b bs)

theorem perm_sortByKey (le : α → α → Bool) (l : List α) :
    List.Perm (sortByKey le l) l := by
  induction l with
  | nil => exact List.Perm.refl _
  | cons a as ih =>
    exact List.Perm.trans (perm_insertSorted le a _) (ih.cons a)

theorem mem_insertSorted (le : α → α → Bool) (a x : α) (l : List α) :
    x ∈ insertSorted le a l ↔ x = a ∨ x ∈ l :=
  (perm_insertSorted le a l).mem_iff.trans (by simp)

/-- Insertion keeps a list pairwise-ordered, provided `le` is transitive and
total. -/
theorem pairwise_insertSorted (le : α → α → Bool)
    (trans : ∀ x y z : α, le x y = true → le y z = true → le x z = true)
    (total : ∀ x y : α, le x y = true ∨ le y x = true)
    (a : α) (l : List α) (hl : l.Pairwise (fun x y => le x y = true)) :
    (insertSorted le a l).Pairwise (fun x y => le x y = true) := by
  induction l with
  | nil => simp [insertSorted]
  | cons b bs ih =>
    rcases hl with _ | ⟨hb, hbs⟩
    simp only [insertSorted]
    by_cases h : le a b = true
    · rw [if_pos h]
      refine List.Pairwise.cons ?_ (List.Pairwise.cons hb hbs)
      intro x hx
      rcases List.mem_cons.1 hx with hEq | hx
      · subst hEq; exact h
      · exact trans a b x h (hb x hx)
    · rw [if_neg h]
      refine List.Pairwise.cons ?_ (ih hbs)
      intro x hx
      rcases (mem_insertSorted le a x bs).1 hx with hEq | hx
      · subst hEq
        rcases total x b with h' | h'
        · exact absurd h' h
        · exact h'
      · exact hb x hx

/-- The result of `sortByKey` is pairwise-ordered for a transitive, total
comparator. -/
theorem pairwise_sortByKey (le : α → α → Bool)
    (trans : ∀ x y z : α, le x y = true → le y z = true → le x z = true)
    (total : ∀ x y : α, le x y = true ∨ le y x = true)
    (l : List α) :
    (sortByKey le l).Pairwise (fun x y => le x y = true) := by
  induction l with
  | nil => simp [sortByKey]
  | cons a as ih => exact pairwise_insertSorted le trans total a _ ih

/-! ## Cosine similarity

`VectorRepository.search_similar` computes
`similarities = np.dot(doc_vecs, query_vec) / (np.linalg.norm(doc_vecs, axis=1) * np.linalg.norm(query_vec))`.
With a zero-norm query or record the denominator entry is `0.0` and the
numerator is `0.0`, so numpy yields `nan` (a warning, not an exception);
this is modelled as `none`.  Otherwise the score is represented through the
order- and tie-preserving bijection `s ↦ sign s * s ^ 2` (see the header),
giving the rational `simKey`. -/

/-- Dot product of two embedding vectors (`np.dot`). -/
def dot (q v : List ℚ) : ℚ := (List.zipWith (· * ·) q v).sum

/-- Squared Euclidean norm, `‖v‖²` — the square of `np.linalg.norm v`. -/
def normSq (v : List ℚ) : ℚ := dot v v

/-- The cosine-similarity score of query `q` and record `v`, composed with
the strictly monotone bijection `s ↦ sign s * s ^ 2`; `none` models the
`nan` produced by numpy when either norm is zero.  Note `-1` is a fixed
point of the bijection, so "score `= -1`" is faithfully "`simKey = some (-1)`". -/
def simKey (q v : List ℚ) : Option ℚ :=
  if normSq q = 0 ∨ normSq v = 0 then none
  else some ((if dot q v < 0 then (-1 : ℚ) else 1) * dot q v ^ 2 / (normSq q * normSq v))

/-- The same key for the `sentence_transformers.util.cos_sim` path of
`search_vectors_simple`: torch's `normalize` clamps the norm away from zero
(`v / max(‖v‖, eps)`), so a zero-norm vector produces score `0`, never `nan`. -/
def cosTorchKey (q v : List ℚ) : ℚ :=
  if normSq q = 0 ∨ normSq v = 0 then 0
  else (if dot q v < 0 then (-1 : ℚ) else 1) * dot q v ^ 2 / (normSq q * normSq v)

/-- Descending comparison on optional scores, reproducing
`np.argsort(similarities)[-top_k:][::-1]`: `np.argsort` places `nan` last in
ascending order, so after reversal `nan` (= `none`) comes first; numeric
scores are ordered descending. -/
def descLE : Option ℚ → Option ℚ → Bool
  | none, _ => true
  | some _, none => false
  | some x, some y => decide (y ≤ x)

/-- Strict version of `descLE` (strictly greater score first). -/
def descLT (a b : Option ℚ) : Bool := descLE a b && !descLE b a

theorem descLE_trans (a b c : Option ℚ) :
    descLE a b = true → descLE b c = true → descLE a c = true := by
  cases a <;> cases b <;> cases c <;> simp [descLE]
  intro h1 h2
  exact le_trans h2 h1

theorem descLE_total (a b : Option ℚ) : descLE a b = true ∨ descLE b a = true := by
  cases a <;> cases b <;> simp [descLE]
  exact le_total _ _

/-! ## `VectorRepository` (`repositories/vector.py`)

The two persisted artifacts are a pickle of embedding vectors and a JSON
list of metadata dicts.  A metadata entry is
`{"text": ..., "source": ..., "metadata": ..., "created_at": ...}`; the
free-form nested `"metadata"` dict is not consulted by any claim and is
carried as an opaque string. -/

/-- An embedding vector as stored in the pickle artifact. -/
abbrev Vec := List ℚ

/-- One entry of the JSON metadata artifact. -/
structure MetaEntry where
  text : String
  source : String
  mdata : String
  createdAt : String
deriving DecidableEq

/-- The placeholder entry appended by `_load_all`'s padding loop:
`{"text": "", "source": f"unknown-{len(metadata)}", "metadata": {}, "created_at": now}`. -/
def placeholderMeta (idx : Nat) (now : String) : MetaEntry :=
  { text := "", source := "unknown-" ++ toString idx, mdata := "", createdAt := now }

/-- The `while len(metadata) < len(vectors): metadata.append(...)` loop of
`VectorRepository._load_all`, with an explicit iteration counter (the loop
appends one entry per iteration, so `target - ms.length` iterations always
suffice; the counter makes the recursion structural). -/
def padMetadataLoop (target : Nat) (now : String) : Nat → List MetaEntry → List MetaEntry
  | 0, ms => ms
  | fuel + 1, ms =>
    if ms.length < target then
      padMetadataLoop target now fuel (ms ++ [placeholderMeta ms.length now])
    else ms

/-- The consistency-repair step of `VectorRepository._load_all`
(lines 189–202 of `repositories/vector.py`), applied to the two freshly
loaded artifacts:

```
if len(vectors) != len(metadata):
    if len(vectors) > len(metadata):
        vectors = vectors[:len(metadata)]
    else:
        while len(metadata) < len(vectors):
            metadata.append({... placeholder ...})
```

`now` stands for `datetime.now().isoformat()`. -/
def loadAllRepair (vectors : List Vec) (metadata : List MetaEntry) (now : String) :
    List Vec × List MetaEntry :=
  if vectors.length ≠ metadata.length then
    if vectors.length > metadata.length then
      (vectors.take metadata.length, metadata)
    else
      (vectors, padMetadataLoop vectors.length now
        (vectors.length - metadata.length) metadata)
  else
    (vectors, metadata)

/-- A loaded store entry: the vector and its index-aligned metadata entry.
`_load_all` returns the two aligned lists; every per-record operation of the
repository reads `vectors[i]` together with `metadata[i]`, and `delete` pops
both lists at the same index, so aligned entries travel as pairs. -/
structure StoreEntry where
  vec : Vec
  meta : MetaEntry
deriving DecidableEq

/-- `VectorRepository.delete` (lines 139–152): scan the metadata in order and
remove the *first* entry whose `source` equals `entity_id` (popping vector and
metadata at the same index), returning whether one was found. -/
def deleteFirstBySource (entityId : String) : List StoreEntry → List StoreEntry × Bool
  | [] => ([], false)
  | e :: es =>
    if e.meta.source = entityId then (es, true)
    else
      (e :: (deleteFirstBySource entityId es).1, (deleteFirstBySource entityId es).2)

/-- `VectorRepository.exists` (lines 176–179):
`any(meta["source"] == entity_id for meta in metadata)`. -/
def existsBySource (entityId : String) (es : List StoreEntry) : Bool :=
  es.any (fun e => e.meta.source = entityId)

/-- Number of store entries carrying the given source id. -/
def countBySource (entityId : String) (es : List StoreEntry) : Nat :=
  (es.filter (fun e => e.meta.source = entityId)).length

/-- `VectorRepository.search_similar` (lines 106–137): score every stored
vector against the query, order descending (`np.argsort ... [::-1]`, with
`nan` first, see `descLE`) and keep the first `top_k`.  An empty store
returns `[]` (`if not vectors: return []`). -/
def searchSimilar (queryEmbedding : List ℚ) (store : List StoreEntry) (topK : Nat) :
    List (StoreEntry × Option ℚ) :=
  if store.isEmpty then []
  else
    (sortByKey (fun a b => descLE a.2 b.2)
      (store.map (fun e => (e, simKey queryEmbedding e.vec)))).take topK

/-! ## `search_vectors_simple` (`vector_search.py`) and `search_bills` (`geminitools.py`) -/

/-- `True` when `s` consists of whitespace only (including the empty string):
Python's `not s.strip()`. -/
def strBlank (s : String) : Bool := s.data.all (fun c => c.isWhitespace)

/-- A possibly-present score value in a result dict.  `nonNum` stands for a
present value that is not a number: Python's `max` raises `TypeError` when it
compares such a value with a float, and `float()` of it raises — e.g. `None`
or a list. -/
inductive ScoreV where
  | num (q : ℚ)
  | nonNum
deriving DecidableEq

/-- A search-result chunk dict `{'score': ..., 'metadata': ..., 'text': ...}`
as consumed by `search_bills`' reconstruction step.

* `source = none` covers every malformed shape that lines 191–194 skip:
  the chunk not being a dict, `'metadata'` missing or not a dict, or
  `'source'` missing from the metadata.
* `chunkIndex` is the value of `int(chunk['metadata']['chunk_index_doc'])`
  when the key is present and parseable, `none` when that expression raises
  (`KeyError`/`ValueError`/`TypeError`).
* `score = none` models a dict without a `'score'` key
  (`c.get('score', -1.0)` then yields the default `-1.0`).
* `text` is `str(c.get('text', ''))`. -/
structure SChunk where
  source : Option String
  chunkIndex : Option Int
  score : Option ScoreV
  text : String
deriving DecidableEq

/-- A record of the pickle consumed by `search_vectors_simple`
(`{'embedding': ..., 'metadata': {...}, 'text': ...}`). -/
structure PItem where
  emb : List ℚ
  source : Option String
  chunkIndex : Option Int
  text : String
deriving DecidableEq

/-- The state of the vector-store pickle file as `search_vectors_simple`
finds it: absent (`FileNotFoundError`), unreadable (`pickle`/parse
exception), or loadable data. -/
inductive StoreState where
  | missing
  | corrupt
  | data (items : List PItem)
deriving DecidableEq

/-- Formatting step of `search_vectors_simple` (lines 105–118): a scored item
becomes a result dict `{'score': ..., 'metadata': ..., 'text': ...}`. -/
def formatChunk (p : PItem × ℚ) : SChunk :=
  { source := p.1.source, chunkIndex := p.1.chunkIndex,
    score := some (.num p.2), text := p.1.text }

/-- `search_vectors_simple` (`vector_search.py`, lines 32–119), for a query
whose embedding is `q`:

* a missing pickle file is caught (`except FileNotFoundError: return []`);
* any other load/parse failure is caught (`except Exception: return []`);
* empty data returns `[]`;
* otherwise the items are scored with `util.cos_sim` (`cosTorchKey`), the
  `actual_k = min(k, n)` best scores are selected
  (`np.argpartition` + `np.argsort`, i.e. sort descending and take
  `actual_k`) and formatted. -/
def searchVectorsSimple (q : List ℚ) (st : StoreState) (k : Nat) : List SChunk :=
  match st with
  | .missing => []
  | .corrupt => []
  | .data items =>
    if items.isEmpty then []
    else
      let actualK := min k items.length
      ((sortByKey (fun a b => decide (b.2 ≤ a.2))
          (items.map (fun it => (it, cosTorchKey q it.emb)))).take actualK).map formatChunk

/-- The clamp of `search_bills` (line 135): `top_k = max(1, min(int(top_k), 10))`. -/
def clampTopK (topK : Int) : Int := max 1 (min topK 10)

/-- `defaultdict(list)` grouping: append `c` to the group keyed `s`,
creating the group at the end on first sight (Python dicts preserve
insertion order). -/
def insertGroup (s : String) (c : SChunk) :
    List (String × List SChunk) → List (String × List SChunk)
  | [] => [(s, [c])]
  | (k, g) :: rest =>
    if k = s then (k, g ++ [c]) :: rest else (k, g) :: insertGroup s c rest

/-- One iteration of the grouping loop (lines 189–196): a chunk without a
usable source bumps the skip counter; otherwise it is appended to its
source's group. -/
def groupStep (acc : List (String × List SChunk) × Nat) (c : SChunk) :
    List (String × List SChunk) × Nat :=
  match c.source with
  | none => (acc.1, acc.2 + 1)
  | some s => (insertGroup s c acc.1, acc.2)

/-- Grouping loop of `search_bills` (lines 187–196): chunks are grouped by
`chunk['metadata']['source']`; a chunk whose shape is invalid or which lacks
a source is skipped and counted (`missing_metadata_count`), never raised on. -/
def groupChunks (cs : List SChunk) : List (String × List SChunk) × Nat :=
  cs.foldl groupStep ([], 0)

/-- Total number of chunks covered by the groups. -/
def sumGroupSizes (gs : List (String × List SChunk)) : Nat :=
  (gs.map (fun p => p.2.length)).sum

/-- Ascending comparison by parsed chunk index (Python's
`key=lambda c: int(c['metadata']['chunk_index_doc'])`); only used on groups
where every index is present. -/
def chunkIdxLE (a b : SChunk) : Bool := decide (a.chunkIndex.getD 0 ≤ b.chunkIndex.getD 0)

/-- Per-group ordering of `search_bills` (lines 204–212): sort the group by
integer chunk index ascending (`sorted` is stable); if *any* member's index
is missing or unparsable the whole `sorted` call raises and the group keeps
its arrival order. -/
def sortGroupChunks (g : List SChunk) : List SChunk :=
  if g.all (fun c => c.chunkIndex.isSome) then sortByKey chunkIdxLE g else g

/-- Concatenation step (line 217):
`" ".join([str(c.get('text', '')) for c in sorted_chunks])`. -/
def reconstructText (g : List SChunk) : String :=
  String.intercalate " " (g.map (fun c => c.text))

/-- Python `max` over a non-empty list (`foldl max` from the head).  The
empty case never arises (groups are non-empty); it is given the line's
fallback value `-1`. -/
def maxQ : List ℚ → ℚ
  | [] => -1
  | x :: xs => xs.foldl max x

/-- `c.get('score', -1.0)`: a missing score defaults to `-1.0`; a present
value is used as-is. -/
def scoreOrDefault (c : SChunk) : ScoreV := c.score.getD (.num (-1))

/-- The numeric value of a score entry (`-1` for the non-numeric case, which
callers exclude). -/
def scoreValNum : ScoreV → ℚ
  | .num q => q
  | .nonNum => -1

/-- Max-score aggregation of `search_bills` (lines 220–224):
`max_score = float(max([c.get('score', -1.0) for c in sorted_chunks]))`,
with the whole expression falling back to `-1.0` when it raises.  If every
value is numeric the expression is Python `max`; if some value is `nonNum`,
`max` (comparison with a float) or the outer `float()` raises
`TypeError`/`ValueError` and the `except` branch sets `-1.0`. -/
def groupMaxScore (g : List SChunk) : ℚ :=
  if (g.map scoreOrDefault).all
      (fun v => match v with | .num _ => true | .nonNum => false) then
    maxQ ((g.map scoreOrDefault).filterMap
      (fun v => match v with | .num q => some q | .nonNum => none))
  else -1

/-- A reconstructed bill dict (lines 227–232). -/
structure RBill where
  sourceBill : String
  reconstructedText : String
  maxScore : ℚ
  contributingChunks : Nat
deriving DecidableEq

/-- Reconstruction step of `search_bills` (lines 186–239): group, order each
group, concatenate, aggregate the max score, and sort the bills by
`max_score` descending (`list.sort(key=..., reverse=True)`, stable).
Also returns the skipped-chunk count. -/
def reconstructBills (cs : List SChunk) : List RBill × Nat :=
  let gs := groupChunks cs
  let bills := gs.1.map (fun p =>
    let sc := sortGroupChunks p.2
    { sourceBill := p.1,
      reconstructedText := reconstructText sc,
      maxScore := groupMaxScore sc,
      contributingChunks := sc.length })
  (sortByKey (fun a b => decide (b.maxScore ≤ a.maxScore)) bills, gs.2)

/-- The value returned by `search_bills`: an error dict `{'error': msg}`, a
list of raw chunk dicts, or a list of reconstructed-bill dicts.  An error
dict and a (possibly empty) list are distinct Python values, hence distinct
constructors. -/
inductive BillResult where
  | error (msg : String)
  | chunks (xs : List SChunk)
  | bills (xs : List RBill)
deriving DecidableEq

/-- The environment `search_bills` runs against: whether
`load_search_model` succeeds, the embedding the model assigns to the query,
and the state of the vector-store pickle. -/
structure SearchEnv where
  modelOk : Bool
  queryEmb : List ℚ
  store : StoreState

/-- `search_bills` (`geminitools.py`, lines 95–239):

1. an empty/whitespace query returns `{'error': ...}` (lines 130–132);
2. `top_k` is clamped to `max(1, min(top_k, 10))` (line 135);
3. a model-load failure returns `{'error': ...}` (lines 141–150);
4. the vector search runs; `search_vectors_simple` swallows a missing or
   corrupt pickle internally and returns `[]`, so those cases fall through
   to the `return []` no-results branch (lines 162–164);
5. without reconstruction the raw chunks are returned, otherwise the
   reconstructed bills (lines 182–239). -/
def searchBills (query : String) (topK : Int) (reconstruct : Bool) (env : SearchEnv) :
    BillResult :=
  if strBlank query then .error "Query cannot be empty."
  else if !env.modelOk then .error "Failed to load embedding model"
  else if (searchVectorsSimple env.queryEmb env.store (clampTopK topK).toNat).isEmpty then
    .chunks []
  else if !reconstruct then
    .chunks (searchVectorsSimple env.queryEmb env.store (clampTopK topK).toNat)
  else
    .bills (reconstructBills
      (searchVectorsSimple env.queryEmb env.store (clampTopK topK).toNat)).1

/-- `True` exactly for the error dict `{'error': msg}` outcome. -/
def isErrorResult : BillResult → Bool
  | .error _ => true
  | _ => false

/-- `True` exactly for the empty no-results outcome (`return []`). -/
def isEmptyResult : BillResult → Bool
  | .chunks [] => true
  | _ => false

/-- `call_bill_search` (`tools.py`, lines 108–119): a direct pass-through,
`return geminitools.search_bills(query, top_k, reconstruct_bills_from_chunks)`
— no clamping happens in the caller. -/
def callBillSearch (query : String) (topK : Int) (reconstruct : Bool) (env : SearchEnv) :
    BillResult :=
  searchBills query topK reconstruct env

/-! ## The chunking loop (`makeembeddings.py`, lines 96–145)

Tokens are modelled as the strings they decode to; `tokenizer.decode` of a
window is modelled as concatenation, and the `not chunk_text.strip()` test
as `strBlank`.  The `while` loop advances `start_token` by
`chunk_size_tokens - overlap_tokens` per iteration; since each iteration
either terminates or advances `start` by at least one (when `o < w`),
`tokens.length + 1` iterations always suffice, which the explicit fuel
counter makes structural. -/

/-- `tokenizer.decode(chunk_tokens)` with tokens modelled as decoded pieces. -/
def decodeTokens (ts : List String) : String := String.join ts

/-- One emitted chunk with its metadata fields
`start_token_index`, `end_token_index` (`min(end_token, len(tokens))`) and
`chunk_index_doc`. -/
structure ChunkRec where
  startTok : Nat
  endTok : Nat
  idx : Nat
  text : String
deriving DecidableEq

/-- The body of the chunking `while` loop:

```
while start_token < len(full_text_tokens):
    end_token = start_token + chunk_size_tokens
    chunk_tokens = full_text_tokens[start_token:end_token]
    chunk_text = tokenizer.decode(chunk_tokens, ...)
    if not chunk_text.strip():
        start_token += chunk_size_tokens - overlap_tokens
        continue
    ... emit chunk (end_token_index = min(end_token, len)) ...
    doc_chunk_index += 1
    if end_token >= len(full_text_tokens):
        break
    start_token += chunk_size_tokens - overlap_tokens
``` -/
def chunkLoopAux (tokens : List String) (w o : Nat) :
    Nat → Nat → Nat → List ChunkRec
  | 0, _, _ => []
  | fuel + 1, start, idx =>
    if start < tokens.length then
      if strBlank (decodeTokens ((tokens.drop start).take w)) then
        chunkLoopAux tokens w o fuel (start + (w - o)) idx
      else
        if tokens.length ≤ start + w then
          [⟨start, min (start + w) tokens.length, idx,
            decodeTokens ((tokens.drop start).take w)⟩]
        else
          ⟨start, min (start + w) tokens.length, idx,
              decodeTokens ((tokens.drop start).take w)⟩
            :: chunkLoopAux tokens w o fuel (start + (w - o)) (idx + 1)
    else []

/-- The chunking loop over a document's token sequence, with window `w` and
overlap `o` (`chunk_size_tokens`/`overlap_tokens`). -/
def chunkDocument (tokens : List String) (w o : Nat) : List ChunkRec :=
  chunkLoopAux tokens w o (tokens.length + 1) 0 0

/-! ## Concrete fixtures used by witnesses and counterexamples -/

/-- The numeric score carried by a result dict produced by
`search_vectors_simple` (its results always have `'score': float(...)`). -/
def chunkScore (c : SChunk) : ℚ :=
  match c.score with
  | some (.num q) => q
  | _ => -1

/-- Fixture: a store record with embedding `[3, 4]`. -/
def exRecA : StoreEntry := ⟨[3, 4], ⟨"tA", "s1", "", "t"⟩⟩

/-- Fixture: a second record with the same embedding `[3, 4]` (hence the
same cosine score against any query). -/
def exRecB : StoreEntry := ⟨[3, 4], ⟨"tB", "s2", "", "t"⟩⟩

/-- Fixture: a record whose embedding is the all-zero vector. -/
def exZeroRec : StoreEntry := ⟨[0], ⟨"z", "zs", "", "t"⟩⟩

/-- Fixture: a metadata entry, as would be read from the JSON artifact. -/
def exMeta : MetaEntry := ⟨"txt", "src", "", "t0"⟩

/-- Fixture: first of two store entries sharing source `"a"`. -/
def exEntryA1 : StoreEntry := ⟨[1], ⟨"t1", "a", "", "t"⟩⟩

/-- Fixture: second of two store entries sharing source `"a"`. -/
def exEntryA2 : StoreEntry := ⟨[2], ⟨"t2", "a", "", "t"⟩⟩

/-- Fixture: chunk of source `"b1"` with chunk index 0. -/
def exChunk0 : SChunk := ⟨some "b1", some 0, some (.num (9/10)), "T0"⟩

/-- Fixture: chunk of source `"b1"` with chunk index 1. -/
def exChunk1 : SChunk := ⟨some "b1", some 1, some (.num (4/10)), "T1"⟩

/-- Fixture: chunk of source `"b1"` with chunk index 2. -/
def exChunk2 : SChunk := ⟨some "b1", some 2, some (.num (7/10)), "T2"⟩

/-- Fixture: chunk with a valid numeric score `9/10`. -/
def exScored : SChunk := ⟨some "b", some 0, some (.num (9/10)), "x"⟩

/-- Fixture: chunk of the same source whose score value is not a number. -/
def exBadScore : SChunk := ⟨some "b", some 1, some .nonNum, "y"⟩

/-- Fixture: a well-formed chunk of source `"A"`. -/
def exSrcA : SChunk := ⟨some "A", some 0, some (.num 1), "a"⟩

/-- Fixture: a chunk lacking a `source` (malformed for grouping). -/
def exNoSrc : SChunk := ⟨none, some 1, some (.num 1), "b"⟩

/-- Fixture: a well-formed pickle item for `search_vectors_simple`. -/
def exItem : PItem := ⟨[1], some "s", some 0, "t"⟩

/-- Fixture: a healthy environment whose store holds the single item
`exItem`. -/
def exEnv : SearchEnv := ⟨true, [1], .data [exItem]⟩

/-- Fixture: an environment whose embedding model fails to load. -/
def exEnvNoModel : SearchEnv := ⟨false, [1], .data [exItem]⟩

/-- Fixture: an environment whose vector-store pickle file is missing. -/
def exEnvNoStore : SearchEnv := ⟨true, [1], .missing⟩

/-! ## General lemmas about the search pipeline -/

section SearchLemmas

theorem searchSimilar_length (q : List ℚ) (store : List StoreEntry) (k : Nat) :
    (searchSimilar q store k).length = min k store.length := by
  unfold searchSimilar
  by_cases h : store.isEmpty
  · rw [if_pos h]
    rw [List.isEmpty_iff] at h
    subst h
    simp
  · rw [if_neg h]
    rw [List.length_take, length_sortByKey, List.length_map]

theorem searchSimilar_pairwise (q : List ℚ) (store : List StoreEntry) (k : Nat) :
    (searchSimilar q store k).Pairwise (fun a b => descLE a.2 b.2 = true) := by
  unfold searchSimilar
  by_cases h : store.isEmpty
  · rw [if_pos h]; exact List.Pairwise.nil
  · rw [if_neg h]
    refine List.Pairwise.sublist (List.take_sublist _ _) ?_
    exact pairwise_sortByKey
      (fun (a b : StoreEntry × Option ℚ) => descLE a.2 b.2)
      (fun x y z hxy hyz => descLE_trans x.2 y.2 z.2 hxy hyz)
      (fun x y => descLE_total x.2 y.2) _

theorem searchSimilar_full (q : List ℚ) (store : List StoreEntry) (k : Nat)
    (h : store.length ≤ k) :
    searchSimilar q store k
      = sortByKey (fun a b => descLE a.2 b.2)
          (store.map (fun e => (e, simKey q e.vec))) := by
  unfold searchSimilar
  by_cases he : store.isEmpty
  · rw [if_pos he]
    rw [List.isEmpty_iff] at he
    subst he
    rfl
  · rw [if_neg he, List.take_of_length_le]
    rw [length_sortByKey, List.length_map]
    exact h

theorem searchVectorsSimple_length (q : List ℚ) (items : List PItem) (k : Nat) :
    (searchVectorsSimple q (.data items) k).length = min k items.length := by
  simp only [searchVectorsSimple]
  by_cases h : items.isEmpty
  · rw [if_pos h]
    rw [List.isEmpty_iff] at h
    subst h
    simp
  · rw [if_neg h]
    rw [List.length_map, List.length_take, length_sortByKey, List.length_map]
    omega

theorem searchVectorsSimple_pairwise (q : List ℚ) (items : List PItem) (k : Nat) :
    (searchVectorsSimple q (.data items) k).Pairwise
      (fun a b => chunkScore b ≤ chunkScore a) := by
  simp only [searchVectorsSimple]
  by_cases h : items.isEmpty
  · rw [if_pos h]; exact List.Pairwise.nil
  · rw [if_neg h]
    rw [List.pairwise_map]
    have hs := pairwise_sortByKey (fun a b : PItem × ℚ => decide (b.2 ≤ a.2))
      (fun x y z hxy hyz => by
        rw [decide_eq_true_eq] at hxy hyz ⊢
        exact le_trans hyz hxy)
      (fun x y => by
        rcases le_total x.2 y.2 with h' | h'
        · right; rw [decide_eq_true_eq]; exact h'
        · left; rw [decide_eq_true_eq]; exact h')
      (items.map (fun it => (it, cosTorchKey q it.emb)))
    refine (List.Pairwise.sublist (List.take_sublist _ _) hs).imp ?_
    intro a b hab
    rw [decide_eq_true_eq] at hab
    exact hab

theorem searchVectorsSimple_length_le (q : List ℚ) (st : StoreState) (k : Nat) :
    (searchVectorsSimple q st k).length ≤ k := by
  cases st with
  | missing => simp [searchVectorsSimple]
  | corrupt => simp [searchVectorsSimple]
  | data items =>
    rw [searchVectorsSimple_length]
    omega

end SearchLemmas

/-! ## Lemmas about delete / exists -/

section DeleteLemmas

theorem deleteFirst_found (entityId : String) (es : List StoreEntry) :
    (deleteFirstBySource entityId es).2 = existsBySource entityId es := by
  induction es with
  | nil => rfl
  | cons e es ih =>
    simp only [deleteFirstBySource, existsBySource, List.any_cons]
    by_cases h : e.meta.source = entityId
    · rw [if_pos h]
      simp [h]
    · rw [if_neg h]
      simp only [existsBySource] at ih
      simp [h, ih]

theorem deleteFirst_count (entityId : String) (es : List StoreEntry) :
    (deleteFirstBySource entityId es).2 = true →
      countBySource entityId (deleteFirstBySource entityId es).1 + 1
        = countBySource entityId es := by
  induction es with
  | nil => intro h; exact absurd h (by simp [deleteFirstBySource])
  | cons e es ih =>
    by_cases h : e.meta.source = entityId
    · intro _
      simp only [deleteFirstBySource, if_pos h, countBySource, List.filter_cons]
      simp [h]
    · intro hf
      simp only [deleteFirstBySource, if_neg h] at hf ⊢
      simp only [countBySource, List.filter_cons]
      simp only [countBySource] at ih
      simp [h]
      exact ih hf

theorem deleteFirst_not_found (entityId : String) (es : List StoreEntry) :
    (deleteFirstBySource entityId es).2 = false →
      (deleteFirstBySource entityId es).1 = es := by
  induction es with
  | nil => intro _; rfl
  | cons e es ih =>
    by_cases h : e.meta.source = entityId
    · intro hf
      exact absurd hf (by simp [deleteFirstBySource, if_pos h])
    · intro hf
      simp only [deleteFirstBySource, if_neg h] at hf ⊢
      rw [ih hf]

theorem existsBySource_iff (entityId : String) (es : List StoreEntry) :
    existsBySource entityId es = true ↔ ∃ e ∈ es, e.meta.source = entityId := by
  simp [existsBySource, List.any_eq_true]

end DeleteLemmas

/-! ## Lemmas about the chunking loop -/

section ChunkLemmas

theorem chunkLoopAux_spec (tokens : List String) (w o : Nat) (hwo : o < w)
    (hnb : ∀ s, s < tokens.length →
      strBlank (decodeTokens ((tokens.drop s).take w)) = false) :
    ∀ fuel start idx, start < tokens.length → tokens.length ≤ start + fuel →
      (chunkLoopAux tokens w o fuel start idx).head?.map ChunkRec.startTok = some start
      ∧ List.Chain' (fun a b => b.startTok = a.startTok + (w - o))
          (chunkLoopAux tokens w o fuel start idx)
      ∧ (chunkLoopAux tokens w o fuel start idx).getLast?.map ChunkRec.endTok
          = some tokens.length := by
  intro fuel
  induction fuel with
  | zero => intro start idx h1 h2; omega
  | succ fuel ih =>
    intro start idx h1 h2
    have hblank := hnb start h1
    simp only [chunkLoopAux]
    rw [if_pos h1, hblank]
    rw [if_neg Bool.false_ne_true]
    by_cases h3 : tokens.length ≤ start + w
    · rw [if_pos h3]
      refine ⟨rfl, List.chain'_singleton _, ?_⟩
      simp [Nat.min_eq_right h3]
    · rw [if_neg h3]
      have hstart' : start + (w - o) < tokens.length := by omega
      have hfuel' : tokens.length ≤ start + (w - o) + fuel := by omega
      obtain ⟨ihh, ihc, ihl⟩ := ih (start + (w - o)) (idx + 1) hstart' hfuel'
      refine ⟨rfl, ?_, ?_⟩
      · refine List.chain'_cons'.2 ⟨?_, ihc⟩
        intro y hy
        rw [hy] at ihh
        simp only [Option.map_some'] at ihh
        exact Option.some.inj ihh
      · rcases hr : chunkLoopAux tokens w o fuel (start + (w - o)) (idx + 1) with _ | ⟨r, rs⟩
        · rw [hr] at ihh
          simp at ihh
        · rw [hr] at ihl
          rw [List.getLast?_cons_cons]
          exact ihl

end ChunkLemmas

/-! ## Lemmas about grouping and max-score aggregation -/

section GroupLemmas

theorem sumGroupSizes_insertGroup (s : String) (c : SChunk)
    (gs : List (String × List SChunk)) :
    sumGroupSizes (insertGroup s c gs) = sumGroupSizes gs + 1 := by
  induction gs with
  | nil => simp [insertGroup, sumGroupSizes]
  | cons p gs ih =>
    obtain ⟨k, g⟩ := p
    simp only [insertGroup]
    by_cases h : k = s
    · rw [if_pos h]
      simp only [sumGroupSizes, List.map_cons, List.sum_cons, List.length_append,
        List.length_cons, List.length_nil]
      simp only [sumGroupSizes] at *
      omega
    · rw [if_neg h]
      simp only [sumGroupSizes, List.map_cons, List.sum_cons] at ih ⊢
      omega

theorem foldl_groupStep_sizes (cs : List SChunk) :
    ∀ gs n, sumGroupSizes (cs.foldl groupStep (gs, n)).1
      = sumGroupSizes gs + (cs.filter (fun c => c.source.isSome)).length := by
  induction cs with
  | nil => intro gs n; simp
  | cons c cs ih =>
    intro gs n
    cases hsrc : c.source with
    | none =>
      simp only [List.foldl_cons, groupStep, hsrc, List.filter_cons, Option.isSome_none,
        Bool.false_eq_true, if_false]
      exact ih gs (n + 1)
    | some s =>
      simp only [List.foldl_cons, groupStep, hsrc, List.filter_cons, Option.isSome_some,
        if_true, List.length_cons]
      rw [ih (insertGroup s c gs) n, sumGroupSizes_insertGroup]
      omega

theorem foldl_groupStep_skips (cs : List SChunk) :
    ∀ gs n, (cs.foldl groupStep (gs, n)).2
      = n + (cs.filter (fun c => c.source.isNone)).length := by
  induction cs with
  | nil => intro gs n; simp
  | cons c cs ih =>
    intro gs n
    cases hsrc : c.source with
    | none =>
      simp only [List.foldl_cons, groupStep, hsrc, List.filter_cons, Option.isNone_none,
        if_true, List.length_cons]
      rw [ih gs (n + 1)]
      omega
    | some s =>
      simp only [List.foldl_cons, groupStep, hsrc, List.filter_cons, Option.isNone_some,
        Bool.false_eq_true, if_false]
      exact ih (insertGroup s c gs) n

theorem insertGroup_sources (s : String) (c : SChunk) (hc : c.source = some s) :
    ∀ gs, (∀ p ∈ gs, ∀ x ∈ p.2, x.source = some p.1) →
      ∀ p ∈ insertGroup s c gs, ∀ x ∈ p.2, x.source = some p.1 := by
  intro gs
  induction gs with
  | nil =>
    intro _ p hp x hx
    simp only [insertGroup, List.mem_singleton] at hp
    subst hp
    simp only [List.mem_singleton] at hx
    subst hx
    exact hc
  | cons q gs ih =>
    obtain ⟨k, g⟩ := q
    intro hinv p hp x hx
    simp only [insertGroup] at hp
    by_cases h : k = s
    · rw [if_pos h] at hp
      rcases List.mem_cons.1 hp with hEq | hp'
      · subst hEq
        rcases List.mem_append.1 hx with hg | hcx
        · exact hinv (k, g) (List.mem_cons_self _ _) x hg
        · simp only [List.mem_singleton] at hcx
          subst hcx
          rw [hc, h]
      · exact hinv p (List.mem_cons_of_mem _ hp') x hx
    · rw [if_neg h] at hp
      rcases List.mem_cons.1 hp with hEq | hp'
      · subst hEq
        exact hinv (k, g) (List.mem_cons_self _ _) x hx
      · exact ih (fun r hr => hinv r (List.mem_cons_of_mem _ hr)) p hp' x hx

theorem foldl_groupStep_sources (cs : List SChunk) :
    ∀ gs n, (∀ p ∈ gs, ∀ x ∈ p.2, x.source = some p.1) →
      ∀ p ∈ (cs.foldl groupStep (gs, n)).1, ∀ x ∈ p.2, x.source = some p.1 := by
  induction cs with
  | nil => intro gs n h; exact h
  | cons c cs ih =>
    intro gs n hinv
    cases hsrc : c.source with
    | none =>
      simp only [List.foldl_cons, groupStep, hsrc]
      exact ih gs (n + 1) hinv
    | some s =>
      simp only [List.foldl_cons, groupStep, hsrc]
      exact ih _ n (insertGroup_sources s c hsrc gs hinv)

theorem le_foldl_max (a : ℚ) (xs : List ℚ) : a ≤ xs.foldl max a := by
  induction xs generalizing a with
  | nil => exact le_refl a
  | cons b bs ih => exact le_trans (le_max_left a b) (ih (max a b))

theorem mem_le_foldl_max (x a : ℚ) (xs : List ℚ) (hx : x ∈ xs) :
    x ≤ xs.foldl max a := by
  induction xs generalizing a with
  | nil => cases hx
  | cons b bs ih =>
    rcases List.mem_cons.1 hx with hEq | hmem
    · subst hEq
      exact le_trans (le_max_right a x) (le_foldl_max _ bs)
    · exact ih (max a b) hmem

theorem le_maxQ_of_mem (x : ℚ) (l : List ℚ) (hx : x ∈ l) : x ≤ maxQ l := by
  cases l with
  | nil => cases hx
  | cons a xs =>
    rcases List.mem_cons.1 hx with hEq | hmem
    · subst hEq
      exact le_foldl_max x xs
    · exact mem_le_foldl_max x a xs hmem

theorem filterMap_num_eq_map (vals : List ScoreV)
    (h : ∀ v ∈ vals, v ≠ ScoreV.nonNum) :
    vals.filterMap (fun v => match v with | .num q => some q | .nonNum => none)
      = vals.map scoreValNum := by
  induction vals with
  | nil => rfl
  | cons v vs ih =>
    cases v with
    | num q =>
      simp only [List.filterMap_cons, List.map_cons]
      rw [ih (fun w hw => h w (List.mem_cons_of_mem _ hw))]
      rfl
    | nonNum => exact absurd rfl (h _ (List.mem_cons_self _ _))

theorem groupMaxScore_numeric (g : List SChunk)
    (h : ∀ c ∈ g, scoreOrDefault c ≠ ScoreV.nonNum) :
    groupMaxScore g = maxQ (g.map (fun c => scoreValNum (scoreOrDefault c))) := by
  unfold groupMaxScore
  have hall : (g.map scoreOrDefault).all
      (fun v => match v with | .num _ => true | .nonNum => false) = true := by
    rw [List.all_eq_true]
    intro v hv
    rcases List.mem_map.1 hv with ⟨c, hc, rfl⟩
    cases hval : scoreOrDefault c with
    | num q => rfl
    | nonNum => exact absurd hval (h c hc)
  rw [if_pos hall]
  rw [filterMap_num_eq_map]
  · rw [List.map_map]
    rfl
  · intro v hv
    rcases List.mem_map.1 hv with ⟨c, hc, rfl⟩
    exact h c hc

theorem groupMaxScore_nonNum (g : List SChunk)
    (h : ∃ c ∈ g, c.score = some ScoreV.nonNum) :
    groupMaxScore g = -1 := by
  unfold groupMaxScore
  obtain ⟨c, hc, hsc⟩ := h
  have hbad : scoreOrDefault c = ScoreV.nonNum := by
    simp [scoreOrDefault, hsc]
  cases hall : (g.map scoreOrDefault).all
      (fun v => match v with | .num _ => true | .nonNum => false) with
  | false =>
    simp
  | true =>
    exfalso
    have := (List.all_eq_true.1 hall) (scoreOrDefault c)
      (List.mem_map_of_mem _ hc)
    rw [hbad] at this
    simp at this

end GroupLemmas

/-! ## Claim theorems -/

section ClaimTheorems

attribute [local semireducible] Rat.mul Rat.add Rat.sub Rat.inv

/-- **C1** (code bug, evaluated at the failing input).  The claim — and the
comments `# Ensure consistency` / `# Pad metadata with empty entries` inside
`VectorRepository._load_all` — promise that after a load the vector list and
the metadata list have equal length, padding metadata when there are more
metadata entries than vectors.  In the code, that branch runs
`while len(metadata) < len(vectors)`, whose condition is already false when
`len(vectors) < len(metadata)`, so nothing is repaired: loading an empty
vector pickle together with a one-entry metadata file leaves lengths `0` and
`1`.  (The opposite direction — more vectors than metadata — is repaired by
truncation, as the second conjunct shows.) -/
theorem loadAllRepair_metadata_excess_unrepaired :
    ((loadAllRepair [] [exMeta] "now").1.length = 0
      ∧ (loadAllRepair [] [exMeta] "now").2.length = 1)
    ∧ ((loadAllRepair [[1], [2]] [exMeta] "now").1.length = 1
      ∧ (loadAllRepair [[1], [2]] [exMeta] "now").2.length = 1) := by
  decide

/-- **C2 (amended).**  For every store of size `n` and every positive `k`,
`search` returns a list of length exactly `min(k, n)`, sorted descending
(*non-strictly*: ties between equal scores are possible, see the
counterexample) by cosine-similarity score; the empty store yields `[]`, and
for `k ≥ n` the result is the entire scored store sorted by score.  Both
search implementations (`VectorRepository.search_similar` and
`search_vectors_simple`) are covered. -/
theorem search_length_min_sorted (q : List ℚ) (store : List StoreEntry) (k : Nat)
    (_hpos : 1 ≤ k) :
    (searchSimilar q store k).length = min k store.length
    ∧ (searchSimilar q store k).Pairwise (fun a b => descLE a.2 b.2 = true)
    ∧ (store = [] → searchSimilar q store k = [])
    ∧ (store.length ≤ k →
        searchSimilar q store k
          = sortByKey (fun a b => descLE a.2 b.2)
              (store.map (fun e => (e, simKey q e.vec)))
        ∧ List.Perm (searchSimilar q store k)
            (store.map (fun e => (e, simKey q e.vec))))
    ∧ (∀ items : List PItem,
        (searchVectorsSimple q (.data items) k).length = min k items.length
        ∧ (searchVectorsSimple q (.data items) k).Pairwise
            (fun a b => chunkScore b ≤ chunkScore a)) := by
  refine ⟨searchSimilar_length q store k, searchSimilar_pairwise q store k, ?_, ?_, ?_⟩
  · intro h
    subst h
    rfl
  · intro h
    refine ⟨searchSimilar_full q store k h, ?_⟩
    rw [searchSimilar_full q store k h]
    exact perm_sortByKey _ _
  · intro items
    exact ⟨searchVectorsSimple_length q items k, searchVectorsSimple_pairwise q items k⟩

/-- Witness for `search_length_min_sorted` at `q = [3,4]`, a one-record
store and `k = 1`. -/
theorem search_length_min_sorted_witness :
    searchSimilar [3, 4] [exRecA] 1
      = sortByKey (fun a b => descLE a.2 b.2)
          ([exRecA].map (fun e => (e, simKey [3, 4] e.vec))) :=
  ((search_length_min_sorted [3, 4] [exRecA] 1 (by decide)).2.2.2.1 (by decide)).1

/-- **C2, counterexample to strictness.**  Two records with the same
embedding `[3,4]` both score `1` against the query `[3,4]`; the returned
list of scores is `[1, 1]`, which is *not* strictly descending, refuting
"sorted strictly descending by cosine-similarity score". -/
theorem search_strict_descending_cex :
    (searchSimilar [3, 4] [exRecA, exRecB] 2).map (fun p => p.2) = [some 1, some 1]
    ∧ ¬ (searchSimilar [3, 4] [exRecA, exRecB] 2).Pairwise
        (fun a b => descLT a.2 b.2 = true) := by
  decide

/-- **C3 (amended).**  A zero-norm query or record never raises a division
error — numpy evaluates `0.0 / 0.0` to `nan` with a warning — but the
pairing's score is `nan` (modelled `none`), *not* `-1`; `nan` sorts as the
greatest value in `np.argsort(...)[::-1]` order, so the zero-norm record
appears at the *front* of the results, and a store containing an all-zero
vector still yields the full `min(k, n)` results. -/
theorem zero_norm_score_nan (q v : List ℚ) (store : List StoreEntry) (k : Nat) :
    (normSq q = 0 ∨ normSq v = 0 →
      simKey q v = none ∧ simKey q v ≠ some (-1))
    ∧ ((∃ e ∈ store, normSq e.vec = 0) →
        (searchSimilar q store k).length = min k store.length)
    ∧ (∀ s : Option ℚ, descLE none s = true) := by
  refine ⟨?_, ?_, ?_⟩
  · intro h
    unfold simKey
    rw [if_pos h]
    exact ⟨rfl, by simp⟩
  · intro _
    exact searchSimilar_length q store k
  · intro s
    rfl

/-- Witness for `zero_norm_score_nan`: the all-zero record `exZeroRec`
against query `[1]`. -/
theorem zero_norm_score_nan_witness :
    simKey [1] [0] = none
    ∧ (searchSimilar [1] [exZeroRec] 1).length = min 1 1 :=
  ⟨((zero_norm_score_nan [1] [0] [exZeroRec] 1).1 (Or.inr (by decide))).1,
   (zero_norm_score_nan [1] [0] [exZeroRec] 1).2.1 ⟨exZeroRec, by decide⟩⟩

/-- **C3, counterexample.**  Searching the one-record store holding the
all-zero vector assigns that pairing the score `nan` (`none`), not `-1`:
the claim "assigns that pairing the score `-1` ... and that vector sorts at
score `-1`" is false at this input. -/
theorem zero_norm_score_cex :
    searchSimilar [1] [exZeroRec] 1 = [(exZeroRec, none)]
    ∧ simKey [1] [0] ≠ some (-1) := by
  decide

/-- **C4 (amended).**  `VectorRepository.delete` removes only the *first*
stored record whose `source` equals the id (reporting whether one was
found: found status equals `exists`); when none is found the store is
unchanged; and `exists(source)` is true exactly when at least one record
with that `source` is present. -/
theorem delete_removes_first_only (entityId : String) (es : List StoreEntry) :
    ((deleteFirstBySource entityId es).2 = existsBySource entityId es)
    ∧ ((deleteFirstBySource entityId es).2 = true →
        countBySource entityId (deleteFirstBySource entityId es).1 + 1
          = countBySource entityId es)
    ∧ ((deleteFirstBySource entityId es).2 = false →
        (deleteFirstBySource entityId es).1 = es)
    ∧ (existsBySource entityId es = true ↔ ∃ e ∈ es, e.meta.source = entityId) :=
  ⟨deleteFirst_found entityId es, deleteFirst_count entityId es,
   deleteFirst_not_found entityId es, existsBySource_iff entityId es⟩

/-- Witness for `delete_removes_first_only` on a two-record store whose
records share source `"a"`: the delete drops exactly one of the two. -/
theorem delete_removes_first_only_witness :
    countBySource "a" (deleteFirstBySource "a" [exEntryA1, exEntryA2]).1 + 1
      = countBySource "a" [exEntryA1, exEntryA2] :=
  (delete_removes_first_only "a" [exEntryA1, exEntryA2]).2.1 (by decide)

/-- **C4, counterexample.**  With two stored records of source `"a"`,
`delete("a")` returns `True` but a record with source `"a"` (the second
one) is still present — `exists("a")` still holds — refuting "deleting that
source removes every stored record whose source field equals it". -/
theorem delete_all_records_cex :
    (deleteFirstBySource "a" [exEntryA1, exEntryA2]).2 = true
    ∧ existsBySource "a" (deleteFirstBySource "a" [exEntryA1, exEntryA2]).1 = true
    ∧ (deleteFirstBySource "a" [exEntryA1, exEntryA2]).1 = [exEntryA2]
    ∧ exEntryA2.meta.source = "a" := by
  decide

/-- **C5 (amended).**  For every token sequence of length `L > 0`, window
`W` and overlap `O` with `0 ≤ O < W`, *provided no window's decoded text is
whitespace-only* (such a window is skipped without emitting, see the
counterexample), the emitted chunks start at offset `0`, every emitted
chunk's start offset strictly increases by exactly `W - O` over the previous
emitted chunk's start (`W - O > 0`), and the last emitted chunk's end offset
equals `L`. -/
theorem chunk_starts_step_last_end (tokens : List String) (w o : Nat)
    (hwo : o < w) (hne : 0 < tokens.length)
    (hnb : ∀ s, s < tokens.length →
      strBlank (decodeTokens ((tokens.drop s).take w)) = false) :
    (chunkDocument tokens w o).head?.map ChunkRec.startTok = some 0
    ∧ List.Chain' (fun a b => b.startTok = a.startTok + (w - o))
        (chunkDocument tokens w o)
    ∧ (chunkDocument tokens w o).getLast?.map ChunkRec.endTok
        = some tokens.length
    ∧ 0 < w - o := by
  obtain ⟨hh, hc, hl⟩ :=
    chunkLoopAux_spec tokens w o hwo hnb (tokens.length + 1) 0 0 hne (by omega)
  exact ⟨hh, hc, hl, by omega⟩

/-- Witness for `chunk_starts_step_last_end`: the one-token sequence
`["a"]` with `W = 1`, `O = 0`. -/
theorem chunk_starts_step_last_end_witness :
    (chunkDocument ["a"] 1 0).getLast?.map ChunkRec.endTok = some 1
    ∧ (chunkDocument ["a"] 1 0).head?.map ChunkRec.startTok = some 0 :=
  ⟨(chunk_starts_step_last_end ["a"] 1 0 (by decide) (by decide) (by decide)).2.2.1,
   (chunk_starts_step_last_end ["a"] 1 0 (by decide) (by decide) (by decide)).1⟩

/-- **C5, counterexample.**  A window whose decoded text is whitespace-only
is skipped without emitting (`if not chunk_text.strip(): ... continue`), so
the claim fails as stated: with tokens `["a", " "]`, `W = 1`, `O = 0`, the
last emitted chunk ends at offset `1 ≠ 2 = L`; and with
`["a", " ", "b"]` the emitted starts are `[0, 2]`, jumping by `2 ≠ W - O = 1`. -/
theorem chunk_blank_window_cex :
    (chunkDocument ["a", " "] 1 0).getLast?.map ChunkRec.endTok = some 1
    ∧ (["a", " "] : List String).length = 2
    ∧ (chunkDocument ["a", " ", "b"] 1 0).map ChunkRec.startTok = [0, 2] := by
  decide

/-- **C6.**  For every list of scored chunks sharing one source, the
reconstruction orders the group by its integer-parseable chunk index
ascending (a permutation of the group, pairwise ordered) before
concatenating with single spaces; if any member of the group lacks a
parseable index the entire group keeps arrival order; and three chunks of
one source arriving as `chunk_index = 2, 0, 1` reconstruct to
`chunk0.text + " " + chunk1.text + " " + chunk2.text`. -/
theorem group_order_by_index (g : List SChunk) :
    ((∀ c ∈ g, c.chunkIndex.isSome = true) →
        List.Perm (sortGroupChunks g) g
        ∧ (sortGroupChunks g).Pairwise (fun a b => chunkIdxLE a b = true))
    ∧ ((∃ c ∈ g, c.chunkIndex = none) → sortGroupChunks g = g)
    ∧ reconstructText (sortGroupChunks [exChunk2, exChunk0, exChunk1])
        = exChunk0.text ++ " " ++ exChunk1.text ++ " " ++ exChunk2.text := by
  refine ⟨?_, ?_, by decide⟩
  · intro h
    have hall : g.all (fun c => c.chunkIndex.isSome) = true := by
      rw [List.all_eq_true]
      exact h
    unfold sortGroupChunks
    rw [if_pos hall]
    refine ⟨perm_sortByKey _ _, ?_⟩
    refine pairwise_sortByKey chunkIdxLE ?_ ?_ g
    · intro x y z hxy hyz
      unfold chunkIdxLE at *
      rw [decide_eq_true_eq] at hxy hyz ⊢
      exact le_trans hxy hyz
    · intro x y
      unfold chunkIdxLE
      rcases le_total (x.chunkIndex.getD 0) (y.chunkIndex.getD 0) with h' | h'
      · left; rw [decide_eq_true_eq]; exact h'
      · right; rw [decide_eq_true_eq]; exact h'
  · rintro ⟨c, hc, hnone⟩
    have hall : g.all (fun c => c.chunkIndex.isSome) ≠ true := by
      intro hAll
      have := List.all_eq_true.1 hAll c hc
      rw [hnone] at this
      simp at this
    unfold sortGroupChunks
    rw [if_neg hall]

/-- Witness for `group_order_by_index`: the scenario group
`[exChunk2, exChunk0, exChunk1]` (all indices parseable) is sorted pairwise
ascending by chunk index. -/
theorem group_order_by_index_witness :
    (sortGroupChunks [exChunk2, exChunk0, exChunk1]).Pairwise
      (fun a b => chunkIdxLE a b = true) :=
  ((group_order_by_index [exChunk2, exChunk0, exChunk1]).1 (by decide)).2

/-- **C7 (amended).**  For a group all of whose present score values are
numeric, `max_score` is the maximum over the group with each *missing*
score defaulting to `-1` (so any valid member score `s` satisfies
`s ≤ max_score`); but if any member carries a *non-numeric* score value,
the `max`/`float` expression raises and the `except` branch sets the whole
group's `max_score` to `-1`, discarding valid scores (see the
counterexample). -/
theorem group_max_score_spec (g : List SChunk) :
    ((∀ c ∈ g, scoreOrDefault c ≠ ScoreV.nonNum) →
        groupMaxScore g = maxQ (g.map (fun c => scoreValNum (scoreOrDefault c)))
        ∧ ∀ c ∈ g, ∀ s : ℚ, c.score = some (.num s) → s ≤ groupMaxScore g)
    ∧ ((∃ c ∈ g, c.score = some ScoreV.nonNum) → groupMaxScore g = -1) := by
  constructor
  · intro h
    refine ⟨groupMaxScore_numeric g h, ?_⟩
    intro c hc s hs
    rw [groupMaxScore_numeric g h]
    have hv : s = scoreValNum (scoreOrDefault c) := by
      simp [scoreOrDefault, hs, scoreValNum]
    rw [hv]
    exact le_maxQ_of_mem _ _ (List.mem_map_of_mem _ hc)
  · exact groupMaxScore_nonNum g

/-- Witness for `group_max_score_spec`: a singleton group with numeric
score `9/10` reports that maximum. -/
theorem group_max_score_spec_witness :
    groupMaxScore [exChunk0]
      = maxQ ([exChunk0].map (fun c => scoreValNum (scoreOrDefault c))) :=
  ((group_max_score_spec [exChunk0]).1 (by decide)).1

/-- **C7, counterexample.**  A group holding one valid score `9/10` and one
non-numeric score value reports `max_score = -1 < 9/10`: the non-numeric
value does *not* default individually to `-1`; it makes the whole `max`
expression raise, so the claim's `max_score ≥ s` fails. -/
theorem group_max_score_cex :
    groupMaxScore [exScored, exBadScore] = -1
    ∧ exScored.score = some (.num (9/10))
    ∧ ¬((9/10 : ℚ) ≤ groupMaxScore [exScored, exBadScore]) := by
  decide

/-- **C8 (amended).**  `search_bills` reports an empty/whitespace query and
an unavailable embedding model as typed error results, distinct from the
empty no-results list, and a result value is never simultaneously the empty
result and an error; but an unreachable (or unreadable) vector-store file
is swallowed inside `search_vectors_simple` (`except FileNotFoundError:
return []`), so it surfaces as the *empty* result, indistinguishable from
"no results found" (see the counterexample). -/
theorem search_bills_error_vs_empty (query : String) (topK : Int)
    (reconstruct : Bool) (env : SearchEnv) :
    (strBlank query = true →
        searchBills query topK reconstruct env = .error "Query cannot be empty.")
    ∧ (strBlank query = false → env.modelOk = false →
        searchBills query topK reconstruct env
          = .error "Failed to load embedding model")
    ∧ (strBlank query = false → env.modelOk = true → env.store = .missing →
        searchBills query topK reconstruct env = .chunks [])
    ∧ (strBlank query = false → env.modelOk = true → env.store = .corrupt →
        searchBills query topK reconstruct env = .chunks [])
    ∧ ¬(isErrorResult (searchBills query topK reconstruct env) = true
        ∧ isEmptyResult (searchBills query topK reconstruct env) = true) := by
  refine ⟨?_, ?_, ?_, ?_, ?_⟩
  · intro h
    simp [searchBills, h]
  · intro hq hm
    simp [searchBills, hq, hm]
  · intro hq hm hst
    simp [searchBills, hq, hm, hst, searchVectorsSimple]
  · intro hq hm hst
    simp [searchBills, hq, hm, hst, searchVectorsSimple]
  · rintro ⟨h1, h2⟩
    cases hres : searchBills query topK reconstruct env with
    | error m => rw [hres] at h2; simp [isEmptyResult] at h2
    | chunks xs => rw [hres] at h1; simp [isErrorResult] at h1
    | bills xs => rw [hres] at h1; simp [isErrorResult] at h1

/-- Witness for `search_bills_error_vs_empty`: with a failing model the
call returns the typed error result. -/
theorem search_bills_error_vs_empty_witness :
    searchBills "q" 5 false exEnvNoModel = .error "Failed to load embedding model" :=
  (search_bills_error_vs_empty "q" 5 false exEnvNoModel).2.1 (by decide) (by decide)

/-- **C8, counterexample.**  With the vector-store pickle missing (a
systemic failure per the claim) the call returns the *empty* result
`[]`, not an error: `search_vectors_simple` catches `FileNotFoundError`
and returns `[]`, which `search_bills` maps to its no-results branch. -/
theorem store_missing_reported_empty_cex :
    searchBills "q" 5 false exEnvNoStore = .chunks []
    ∧ isErrorResult (searchBills "q" 5 false exEnvNoStore) = false
    ∧ isEmptyResult (searchBills "q" 5 false exEnvNoStore) = true := by
  decide

/-- **C9.**  For every input list of scored chunks, reconstruction groups
chunks by their metadata source field (each group holds exactly the chunks
carrying its source), skips — never raises on — every chunk missing a
source, and counts the skipped chunks; with the 5-chunk input of which 1
lacks a source, the groups cover exactly the remaining 4 chunks and the
skipped count is 1. -/
theorem grouping_covers_and_counts (cs : List SChunk) :
    sumGroupSizes (groupChunks cs).1
      = (cs.filter (fun c => c.source.isSome)).length
    ∧ (groupChunks cs).2 = (cs.filter (fun c => c.source.isNone)).length
    ∧ (∀ p ∈ (groupChunks cs).1, ∀ x ∈ p.2, x.source = some p.1)
    ∧ (groupChunks [exSrcA, exNoSrc, exSrcA, exSrcA, exSrcA]).2 = 1
    ∧ sumGroupSizes (groupChunks [exSrcA, exNoSrc, exSrcA, exSrcA, exSrcA]).1 = 4 := by
  refine ⟨?_, ?_, ?_, by decide, by decide⟩
  · have := foldl_groupStep_sizes cs [] 0
    simpa [groupChunks, sumGroupSizes] using this
  · have := foldl_groupStep_skips cs [] 0
    simpa [groupChunks] using this
  · refine foldl_groupStep_sources cs [] 0 ?_
    intro p hp
    simp at hp

/-- Witness for `grouping_covers_and_counts`: in the grouping of
`[exSrcA, exNoSrc]` the group keyed `"A"` holds only chunks with source
`"A"`. -/
theorem grouping_covers_and_counts_witness :
    exSrcA.source = some "A" :=
  (grouping_covers_and_counts [exSrcA, exNoSrc]).2.2.1
    ("A", [exSrcA]) (by decide) exSrcA (by decide)

/-- **C10.**  For every integer `top_k` supplied to the bill-search entry
point (`call_bill_search` passes it through unclamped), the operation itself
clamps the effective `k` to `max(1, min(top_k, 10))`, so the returned chunk
list never has more than 10 elements. -/
theorem call_bill_search_clamped (query : String) (topK : Int)
    (reconstruct : Bool) (env : SearchEnv) :
    1 ≤ clampTopK topK ∧ clampTopK topK ≤ 10
    ∧ ∀ xs, callBillSearch query topK reconstruct env = .chunks xs →
        xs.length ≤ 10 := by
  refine ⟨by unfold clampTopK; omega, by unfold clampTopK; omega, ?_⟩
  intro xs h
  unfold callBillSearch searchBills at h
  by_cases h1 : strBlank query = true
  · rw [if_pos h1] at h
    exact absurd h (by simp)
  · rw [if_neg h1] at h
    by_cases h2 : (!env.modelOk) = true
    · rw [if_pos h2] at h
      exact absurd h (by simp)
    · rw [if_neg h2] at h
      by_cases h3 : (searchVectorsSimple env.queryEmb env.store
          (clampTopK topK).toNat).isEmpty = true
      · rw [if_pos h3] at h
        injection h with h'
        subst h'
        simp
      · rw [if_neg h3] at h
        by_cases h4 : (!reconstruct) = true
        · rw [if_pos h4] at h
          injection h with h'
          subst h'
          have hlen := searchVectorsSimple_length_le env.queryEmb env.store
            (clampTopK topK).toNat
          have hcl : (clampTopK topK).toNat ≤ 10 := by unfold clampTopK; omega
          omega
        · rw [if_neg h4] at h
          exact absurd h (by simp)

/-- Witness for `call_bill_search_clamped`: `top_k = 99` against a
one-item store still yields at most 10 chunks. -/
theorem call_bill_search_clamped_witness :
    (searchVectorsSimple [1] (StoreState.data [exItem])
      (clampTopK 99).toNat).length ≤ 10 :=
  (call_bill_search_clamped "q" 99 false exEnv).2.2
    (searchVectorsSimple [1] (StoreState.data [exItem]) (clampTopK 99).toNat)
    (by decide)

end ClaimTheorems

end VCBot
